import Mathlib

/-!
# Line-sum command line tool: embedding of `main.go`

The Go program sums the newline counts of files given directly, found in
directories, or found by walking directory trees.  The file system and the
Go standard library calls the program makes are an explicit `World`; the
program's functions are Lean functions over that world.

Conventions
* a byte is a natural number (`Byte`), the newline byte is `10`;
* Go's `int` counters are natural numbers: the counts stay far below the
  range of a 64-bit `int`;
* an open `*os.File` is the list of results its successive `Read` calls give;
* the calls the program makes to open and to close file handles are kept in
  a log (`HandleLog`); what the Go runtime does with a handle the program has
  dropped without closing it is not modelled;
* a run ends in `Run.done`, in `Run.panic` (a Go runtime panic), or is
  `Run.unfinished` when the modelled reads or the walk fuel are used up
  before the Go code would return.
-/

set_option autoImplicit false

namespace LineSum

/-! ## Data model -/

/-- One byte of file content. -/
abbrev Byte := Nat

/-- The byte `'\n'`. -/
def newline : Byte := 10

/-- The error values the program tells apart: `io.EOF`, an error for which
`os.IsNotExist` holds, an error for which `errors.Is(err, os.ErrPermission)`
holds, and any other error. -/
inductive IOErr where
  | eof
  | notExist
  | permission
  | other (code : Nat)
  deriving DecidableEq, Repr

/-- What one call `f.Read(buf)` gives: the bytes `buf[:n]` and the error. -/
structure ReadResult where
  data : List Byte
  err : Option IOErr
  deriving DecidableEq, Repr

/-- An open file handle, as the results of its successive `Read` calls. -/
abbrev File := List ReadResult

/-- The constant `bufferSize` of `readLineCount`. -/
def bufferSize : Nat := 32 * 1024

/-- Go `bytes.Count(s, []byte{sep})` for a one-byte separator. -/
def bytesCount (s : List Byte) (sep : Byte) : Nat := s.count sep

/-- How a run of Go code ends. -/
inductive Run (α : Type) where
  | done (a : α)
  | panic
  | unfinished
  deriving DecidableEq, Repr

/-- Sequencing of runs. -/
def Run.bind {α β : Type} (r : Run α) (k : α → Run β) : Run β :=
  match r with
  | .done a => k a
  | .panic => .panic
  | .unfinished => .unfinished

/-! ## `readLineCount` -/

/-- The `for` loop of `readLineCount`, with the running `count`.  Each turn
reads, adds the newlines of `buf[:n]`, and returns when the read gave an
error: `nil` for `io.EOF`, the error itself otherwise.  `none` when the
modelled reads end before any of them reports an error. -/
def readLineCountLoop : File → Nat → Option (Nat × Option IOErr)
  | [], _ => none
  | r :: rest, count =>
    let count := count + bytesCount r.data newline
    match r.err with
    | some e => if e = IOErr.eof then some (count, none) else some (count, some e)
    | none => readLineCountLoop rest count

/-- Go `readLineCount(f)`: `count` starts at zero. -/
def readLineCount (f : File) : Option (Nat × Option IOErr) :=
  readLineCountLoop f 0

/-- A read that succeeded with the bytes `c` (`err == nil`). -/
def okRead (c : List Byte) : ReadResult := ⟨c, none⟩

/-- A stream that hands out `chunks` in successful reads and then ends with a
read that returns `last` together with the error `e`; `rest` is what later
reads would give. -/
def deliver (chunks : List (List Byte)) (last : List Byte) (e : IOErr) (rest : File) : File :=
  chunks.map okRead ++ ⟨last, some e⟩ :: rest

/-- The reads `chunks`, then `last`, hand out exactly `content`, each read
filling at most the 32 KiB buffer. -/
def Delivery (content : List Byte) (chunks : List (List Byte)) (last : List Byte) : Prop :=
  chunks.flatten ++ last = content ∧ (∀ c ∈ chunks, c.length ≤ bufferSize) ∧
    last.length ≤ bufferSize

/-- The content of a text of newline-terminated lines. -/
def linesContent (lines : List (List Byte)) : List Byte :=
  (lines.map (fun l => l ++ [newline])).flatten

/-! ## The file system and the library calls -/

/-- An `os.FileInfo`, as far as the program looks at it. -/
structure FileInfo where
  name : String
  isDir : Bool
  deriving DecidableEq, Repr

/-- An `fs.DirEntry`, as far as the program looks at it. -/
structure DirEntry where
  name : String
  isDir : Bool
  deriving DecidableEq, Repr

/-- The answers of the operating system and of the path functions of the Go
standard library during one run.  `readDir` gives the entries and the error of
`os.ReadDir` (entries read before an error come with the error); `openFile`
stands for both `os.Open(p)` and `os.OpenFile(p, os.O_RDONLY, 0400)`;
`pathJoin` is `path.Join` and `filepathJoin` is `filepath.Join`. -/
structure World where
  abs : String → Except IOErr String
  stat : String → Except IOErr FileInfo
  lstat : String → Except IOErr FileInfo
  readDir : String → List DirEntry × Option IOErr
  openFile : String → Except IOErr File
  pathJoin : String → String → String
  filepathJoin : String → String → String

/-- The call `info.IsDir()` on an interface value that may be `nil`: a method
call on `nil` is a runtime panic. -/
def FileInfo.callIsDir : Option FileInfo → Run Bool
  | none => .panic
  | some info => .done info.isDir

/-- The call `d.IsDir()` on an interface value that may be `nil`. -/
def DirEntry.callIsDir : Option DirEntry → Run Bool
  | none => .panic
  | some d => .done d.isDir

/-- A call of the program on a file handle: a successful `os.Open` or
`os.OpenFile` of the resolved path, or `Close` on the handle of that path. -/
inductive HandleCall where
  | opened (path : String)
  | closed (path : String)
  deriving DecidableEq, Repr

/-- The log of the calls the program has made on file handles, oldest first.
It holds the program's own calls only: whether and when the Go runtime
finalizes an `*os.File` that the program no longer refers to is not part of
it, so the log does not tell which descriptors are open at a given moment. -/
abbrev HandleLog := List HandleCall

/-! ## Validators -/

/-- Go `validateDirs(dirs)`.  After a failed `os.Stat` for which
`os.IsNotExist` holds the code only prints and goes on to `tempDir.IsDir()`
with `tempDir == nil`; when the path is not a directory it only prints. -/
def validateDirs (w : World) : List String → Run (Option IOErr)
  | [] => .done none
  | dir :: rest =>
    match w.abs dir with
    | .error err => .done (some err)
    | .ok absDir =>
      match w.stat absDir with
      | .error err =>
        if err = IOErr.notExist then
          (FileInfo.callIsDir none).bind fun _ => validateDirs w rest
        else .done (some err)
      | .ok tempDir =>
        (FileInfo.callIsDir (some tempDir)).bind fun _ => validateDirs w rest

/-- The `Validator` of the `rdir` and of the `dir` flag. -/
def dirValidator (w : World) (dirs : List String) : Run (Option IOErr) :=
  (validateDirs w dirs).bind fun err =>
    match err with
    | some e => .done (some e)
    | none => .done none

/-- The `Validator` of the `file` flag.  In the `fileStat.IsDir()` branch the
code returns the variable `err`, which holds `nil` after the successful
`os.Stat`. -/
def fileValidator (w : World) : List String → Option IOErr
  | [] => none
  | file :: rest =>
    match w.abs file with
    | .error err => some err
    | .ok absFilePath =>
      match w.stat absFilePath with
      | .error err => some err
      | .ok fileStat =>
        let err : Option IOErr := none
        if fileStat.isDir then err else fileValidator w rest

/-! ## `handleFiles` -/

/-- The loop of `handleFiles` over the remaining `files`, with the running
`sum` and the log of handle calls.  The loop has no call of `Close`. -/
def handleFilesLoop (w : World) : List String → Nat × HandleLog → Run (Nat × HandleLog)
  | [], st => .done st
  | file :: rest, (sum, log) =>
    match w.abs file with
    | .error _ => handleFilesLoop w rest (sum, log)
    | .ok absPath =>
      match w.openFile absPath with
      | .error _ => handleFilesLoop w rest (sum, log)
      | .ok fileHandle =>
        match readLineCount fileHandle with
        | none => .unfinished
        | some (tempSum, _) =>
          handleFilesLoop w rest (sum + tempSum, log ++ [HandleCall.opened absPath])

/-- Go `handleFiles(files)`, continuing the log `log` of handle calls. -/
def handleFiles (w : World) (files : List String) (log : HandleLog) : Run (Nat × HandleLog) :=
  handleFilesLoop w files (0, log)

/-! ## `handleDirs` -/

/-- The inner loop of `handleDirs` over the entries `names` of `dir`. -/
def handleDirsEntries (w : World) (dir : String) :
    List DirEntry → Nat × HandleLog → Run (Nat × HandleLog)
  | [], st => .done st
  | dirEntry :: rest, (sum, log) =>
    match w.abs (w.pathJoin dir dirEntry.name) with
    | .error _ => handleDirsEntries w dir rest (sum, log)
    | .ok absPath =>
      if dirEntry.isDir then handleDirsEntries w dir rest (sum, log)
      else
        match w.openFile absPath with
        | .error _ => handleDirsEntries w dir rest (sum, log)
        | .ok fileHandle =>
          match readLineCount fileHandle with
          | none => .unfinished
          | some (tempSum, _) =>
            handleDirsEntries w dir rest
              (sum + tempSum, log ++ [HandleCall.opened absPath])

/-- The outer loop of `handleDirs` over the remaining `dirs`. -/
def handleDirsLoop (w : World) : List String → Nat × HandleLog → Run (Nat × HandleLog)
  | [], st => .done st
  | dir :: rest, st =>
    match w.readDir dir with
    | (_, some _) => handleDirsLoop w rest st
    | (names, none) => (handleDirsEntries w dir names st).bind (handleDirsLoop w rest)

/-- Go `handleDirs(dirs)`, continuing the log `log` of handle calls. -/
def handleDirs (w : World) (dirs : List String) (log : HandleLog) : Run (Nat × HandleLog) :=
  handleDirsLoop w dirs (0, log)

/-! ## `filepath.WalkDir` (Go standard library) and `handleRecDirs` -/

/-- The non-nil errors an `fs.WalkDirFunc` can return. -/
inductive WalkErr where
  | skipDir
  | skipAll
  | other (e : IOErr)
  deriving DecidableEq, Repr

/-- An `fs.WalkDirFunc` that carries the state `σ` of its closure. -/
abbrev WalkDirFunc (σ : Type) :=
  String → Option DirEntry → Option IOErr → σ → Run (Option WalkErr × σ)

/-- The closing `for _, d1 := range dirs` loop of the library's `walkDir`:
`SkipDir` from a child ends the loop, any other error is returned. -/
def walkDirEntries {σ : Type} (walk : String → DirEntry → σ → Run (Option WalkErr × σ))
    (join : String → String → String) (path : String) :
    List DirEntry → σ → Run (Option WalkErr × σ)
  | [], st => .done (none, st)
  | d1 :: rest, st =>
    match walk (join path d1.name) d1 st with
    | .done (none, st1) => walkDirEntries walk join path rest st1
    | .done (some WalkErr.skipDir, st1) => .done (none, st1)
    | .done (some err, st1) => .done (some err, st1)
    | .panic => .panic
    | .unfinished => .unfinished

/-- The library's `walkDir(path, d, walkDirFn)`; `fuel` bounds the depth of
the descent. -/
def walkDir {σ : Type} (w : World) (walkDirFn : WalkDirFunc σ) :
    Nat → String → DirEntry → σ → Run (Option WalkErr × σ)
  | 0, _, _, _ => .unfinished
  | fuel + 1, path, d, st =>
    match walkDirFn path (some d) none st with
    | .panic => .panic
    | .unfinished => .unfinished
    | .done (err, st1) =>
      if err ≠ none ∨ d.isDir = false then
        .done (if err = some WalkErr.skipDir ∧ d.isDir = true then none else err, st1)
      else
        match w.readDir path with
        | (dirs, none) =>
          walkDirEntries (walkDir w walkDirFn fuel) w.filepathJoin path dirs st1
        | (dirs, some rerr) =>
          match walkDirFn path (some d) (some rerr) st1 with
          | .panic => .panic
          | .unfinished => .unfinished
          | .done (err2, st2) =>
            if err2 ≠ none then
              .done (if err2 = some WalkErr.skipDir ∧ d.isDir = true then none else err2, st2)
            else walkDirEntries (walkDir w walkDirFn fuel) w.filepathJoin path dirs st2

/-- The library's `fs.FileInfoToDirEntry`. -/
def fileInfoToDirEntry (info : FileInfo) : DirEntry :=
  ⟨info.name, info.isDir⟩

/-- The library's `filepath.WalkDir(root, fn)`: when `os.Lstat(root)` fails,
`fn` is called once with a `nil` entry and the error. -/
def WalkDir {σ : Type} (w : World) (fn : WalkDirFunc σ) (fuel : Nat) (root : String) (st : σ) :
    Run (Option WalkErr × σ) :=
  (match w.lstat root with
    | .error err => fn root none (some err) st
    | .ok info => walkDir w fn fuel root (fileInfoToDirEntry info) st).bind
  fun (err, st1) =>
    if err = some WalkErr.skipDir ∨ err = some WalkErr.skipAll then .done (none, st1)
    else .done (err, st1)

/-- The function literal that `handleRecDirs` passes to `filepath.WalkDir`;
its closure state is `sum` and the log of handle calls. -/
def handleRecDirsVisit (w : World) : WalkDirFunc (Nat × HandleLog) :=
  fun path d err (sum, log) =>
    match err with
    | some e =>
      (DirEntry.callIsDir d).bind fun isDir =>
        if isDir = true ∧ e = IOErr.permission then .done (some WalkErr.skipDir, (sum, log))
        else .done (none, (sum, log))
    | none =>
      (DirEntry.callIsDir d).bind fun isDir =>
        if isDir = true then .done (none, (sum, log))
        else
          match w.abs path with
          | .error _ => .done (none, (sum, log))
          | .ok absPath =>
            match w.openFile absPath with
            | .error _ => .done (none, (sum, log))
            | .ok fileHandle =>
              match readLineCount fileHandle with
              | none => .unfinished
              | some (tempSum, _) =>
                .done (none, (sum + tempSum, log ++ [HandleCall.opened absPath]))

/-- The loop of `handleRecDirs` over the remaining `dirs`; the value
`filepath.WalkDir` returns is dropped. -/
def handleRecDirsLoop (w : World) (fuel : Nat) :
    List String → Nat × HandleLog → Run (Nat × HandleLog)
  | [], st => .done st
  | dir :: rest, st =>
    (WalkDir w (handleRecDirsVisit w) fuel dir st).bind fun r =>
      handleRecDirsLoop w fuel rest r.2

/-- Go `handleRecDirs(dirs)`, continuing the log `log` of handle calls. -/
def handleRecDirs (w : World) (fuel : Nat) (dirs : List String) (log : HandleLog) :
    Run (Nat × HandleLog) :=
  handleRecDirsLoop w fuel dirs (0, log)

/-! ## The `Action` of the command -/

/-- The `Action` closure of `main`: `TOTAL` starts at zero and the three
subtotals are added to it in the order dirs, recursive dirs, files. -/
def action (w : World) (fuel : Nat) (dirs recDirs files : List String) (log : HandleLog) :
    Run (Nat × HandleLog) :=
  (handleDirs w dirs log).bind fun r1 =>
    (handleRecDirs w fuel recDirs r1.2).bind fun r2 =>
      (handleFiles w files r2.2).bind fun r3 =>
        .done (0 + r1.1 + r2.1 + r3.1, r3.2)

/-! ## Specification-side notions -/

/-- Every file the world can open reaches a read that reports an error or
end of input. -/
def ReadsEnd (w : World) : Prop :=
  ∀ (a : String) (f : File), w.openFile a = .ok f → readLineCount f ≠ none

/-- What one listed path adds to a total: nothing when the path cannot be
resolved or opened, otherwise the count `readLineCount` returns for the file,
whether or not it comes with a read error. -/
def pathCount (w : World) (p : String) : Nat :=
  match w.abs p with
  | .error _ => 0
  | .ok a =>
    match w.openFile a with
    | .error _ => 0
    | .ok f =>
      match readLineCount f with
      | some (n, _) => n
      | none => 0

/-- The handle calls one listed path stands for: none when the path cannot
be resolved or opened, otherwise the one call that opens its resolved path. -/
def pathOpens (w : World) (p : String) : HandleLog :=
  match w.abs p with
  | .error _ => []
  | .ok a =>
    match w.openFile a with
    | .error _ => []
    | .ok _ => [HandleCall.opened a]

/-- The paths of the immediate non-directory entries of `dir`; none when
`dir` cannot be listed. -/
def dirFiles (w : World) (dir : String) : List String :=
  match w.readDir dir with
  | (_, some _) => []
  | (names, none) =>
    (names.filter (fun d => !d.isDir)).map (fun d => w.pathJoin dir d.name)

/-- The entries of the directory `path` that a walk goes on to: the listed
ones, and none when the listing fails with a permission error. -/
def walked (w : World) (path : String) : List DirEntry :=
  match w.readDir path with
  | (_, some IOErr.permission) => []
  | (dirs, _) => dirs

/-- The paths of the non-directory entries in the subtree of the entry `d` at
`path`, in depth-first order, down to depth `depth`. -/
def subtreeFiles (w : World) : Nat → String → DirEntry → List String
  | 0, _, _ => []
  | depth + 1, path, d =>
    if d.isDir then
      ((walked w path).map
        (fun d1 => subtreeFiles w depth (w.filepathJoin path d1.name) d1)).flatten
    else [path]

/-- The subtree of the entry `d` at `path` is at most `depth` levels deep. -/
def Covered (w : World) : Nat → String → DirEntry → Prop
  | 0, _, _ => False
  | depth + 1, path, d =>
    d.isDir = true → ∀ d1 ∈ walked w path, Covered w depth (w.filepathJoin path d1.name) d1

/-- The root `root` of a walk exists and its subtree is at most `depth`
levels deep. -/
def RootCovered (w : World) (depth : Nat) (root : String) : Prop :=
  ∃ info, w.lstat root = .ok info ∧ Covered w depth root (fileInfoToDirEntry info)

/-- The paths of the non-directory entries in the subtree of the root `root`
of a walk. -/
def rootFiles (w : World) (depth : Nat) (root : String) : List String :=
  match w.lstat root with
  | .ok info => subtreeFiles w depth root (fileInfoToDirEntry info)
  | .error _ => []

/-! ## Concrete worlds -/

/-- A file whose content arrives in one read, followed by end of input. -/
def wholeFile (content : List Byte) : File :=
  [okRead content, ⟨[], some IOErr.eof⟩]

/-- The tree of the scenario: `A/x.txt` holds `a\nb\nc\n`, `A/sub/y.txt`
holds `d\ne`; next to it `err.txt`, whose second read fails after handing out
one more newline, the regular file `notes.txt`, and the directory `locked`,
whose listing hands out the entry `z.txt` together with a permission error.
The working directory is `/w`. -/
def scenarioWorld : World where
  abs := fun p => .ok ("/w/" ++ p)
  stat := fun p =>
    if p = "/w/A" then .ok ⟨"A", true⟩
    else if p = "/w/A/sub" then .ok ⟨"sub", true⟩
    else if p = "/w/A/x.txt" then .ok ⟨"x.txt", false⟩
    else if p = "/w/A/sub/y.txt" then .ok ⟨"y.txt", false⟩
    else if p = "/w/err.txt" then .ok ⟨"err.txt", false⟩
    else if p = "/w/notes.txt" then .ok ⟨"notes.txt", false⟩
    else if p = "/w/locked" then .ok ⟨"locked", true⟩
    else .error IOErr.notExist
  lstat := fun p =>
    if p = "A" then .ok ⟨"A", true⟩
    else if p = "A/sub" then .ok ⟨"sub", true⟩
    else if p = "A/x.txt" then .ok ⟨"x.txt", false⟩
    else if p = "A/sub/y.txt" then .ok ⟨"y.txt", false⟩
    else if p = "err.txt" then .ok ⟨"err.txt", false⟩
    else if p = "notes.txt" then .ok ⟨"notes.txt", false⟩
    else if p = "locked" then .ok ⟨"locked", true⟩
    else .error IOErr.notExist
  readDir := fun p =>
    if p = "A" then ([⟨"sub", true⟩, ⟨"x.txt", false⟩], none)
    else if p = "A/sub" then ([⟨"y.txt", false⟩], none)
    else if p = "locked" then ([⟨"z.txt", false⟩], some IOErr.permission)
    else ([], some IOErr.notExist)
  openFile := fun p =>
    if p = "/w/A/x.txt" then .ok (wholeFile [97, 10, 98, 10, 99, 10])
    else if p = "/w/A/sub/y.txt" then .ok (wholeFile [100, 10, 101])
    else if p = "/w/err.txt" then .ok [okRead [120, 10, 121, 10], ⟨[10], some (IOErr.other 5)⟩]
    else if p = "/w/notes.txt" then .ok (wholeFile [110, 10])
    else if p = "/w/locked/z.txt" then .ok (wholeFile [122, 10, 122, 10])
    else if p = "/w/A" then .ok [⟨[], some (IOErr.other 21)⟩]
    else if p = "/w/A/sub" then .ok [⟨[], some (IOErr.other 21)⟩]
    else .error IOErr.notExist
  pathJoin := fun a b => a ++ "/" ++ b
  filepathJoin := fun a b => a ++ "/" ++ b

/-! ## Lemmas on `readLineCount` -/

theorem readLineCountLoop_deliver (chunks : List (List Byte)) (last : List Byte) (e : IOErr)
    (rest : File) (count : Nat) :
    readLineCountLoop (deliver chunks last e rest) count =
      some (count + bytesCount (chunks.flatten ++ last) newline,
        if e = IOErr.eof then none else some e) := by
  induction chunks generalizing count with
  | nil =>
    simp only [deliver, List.map_nil, List.nil_append, readLineCountLoop, List.flatten_nil]
    split <;> rfl
  | cons c cs ih =>
    have h : deliver (c :: cs) last e rest = okRead c :: deliver cs last e rest := rfl
    rw [h, readLineCountLoop]
    simp only [okRead]
    rw [ih]
    simp [bytesCount, List.count_append, Nat.add_assoc]

theorem readLineCount_deliver (chunks : List (List Byte)) (last : List Byte) (e : IOErr)
    (rest : File) :
    readLineCount (deliver chunks last e rest) =
      some (bytesCount (chunks.flatten ++ last) newline,
        if e = IOErr.eof then none else some e) := by
  rw [readLineCount, readLineCountLoop_deliver, Nat.zero_add]

theorem readLineCountLoop_ne_eof (f : File) (count n : Nat) (err : Option IOErr)
    (h : readLineCountLoop f count = some (n, err)) : err ≠ some IOErr.eof := by
  induction f generalizing count with
  | nil => simp [readLineCountLoop] at h
  | cons r rest ih =>
    rw [readLineCountLoop] at h
    cases hr : r.err with
    | none => rw [hr] at h; exact ih _ h
    | some e =>
      rw [hr] at h
      simp only at h
      split at h
      · cases h; simp
      · cases h
        intro hc
        cases hc
        contradiction

theorem bytesCount_linesContent (lines : List (List Byte))
    (hfree : ∀ l ∈ lines, newline ∉ l) :
    bytesCount (linesContent lines) newline = lines.length := by
  induction lines with
  | nil => rfl
  | cons l ls ih =>
    have hl : List.count newline l = 0 := List.count_eq_zero.mpr (hfree l (by simp))
    have ih1 := ih (fun x hx => hfree x (by simp [hx]))
    simp only [bytesCount, linesContent] at ih1 ⊢
    simp [List.count_append, hl, ih1]


theorem linesContent_concat (lines : List (List Byte)) (l : List Byte) :
    linesContent (lines ++ [l]) = (linesContent lines ++ l) ++ [newline] := by
  simp [linesContent, List.flatten_append]

theorem bytesCount_linesContent_dropLast (lines : List (List Byte))
    (hfree : ∀ l ∈ lines, newline ∉ l) (hne : lines ≠ []) :
    bytesCount (linesContent lines).dropLast newline = lines.length - 1 := by
  rcases List.eq_nil_or_concat lines with h | ⟨init, l, h⟩
  · exact absurd h hne
  · have hcount := bytesCount_linesContent lines hfree
    rw [List.concat_eq_append] at h
    subst h
    rw [linesContent_concat] at hcount ⊢
    rw [List.dropLast_concat]
    simp only [bytesCount, List.count_append, List.length_append, List.length_singleton,
      List.count_singleton_self] at hcount ⊢
    omega

theorem readLineCountLoop_shape (f : File) (count : Nat) (r : Nat × Option IOErr)
    (h : readLineCountLoop f count = some r) :
    ∃ chunks last e rest, f = deliver chunks last e rest := by
  induction f generalizing count with
  | nil => simp [readLineCountLoop] at h
  | cons x xs ih =>
    rw [readLineCountLoop] at h
    cases hx : x.err with
    | none =>
      rw [hx] at h
      obtain ⟨chunks, last, e, rest, hxs⟩ := ih _ h
      refine ⟨x.data :: chunks, last, e, rest, ?_⟩
      have hx' : x = okRead x.data := by
        cases x
        simp only [okRead] at hx ⊢
        rw [hx]
      rw [hxs]
      conv_lhs => rw [hx']
      rfl
    | some e =>
      refine ⟨[], x.data, e, xs, ?_⟩
      cases x
      simp only [deliver, List.map_nil, List.nil_append] at hx ⊢
      rw [hx]

/-! ## Lemmas on the traversal functions -/

theorem pathCount_of_read (w : World) (p a : String) (f : File) (n : Nat) (e : Option IOErr)
    (ha : w.abs p = .ok a) (hf : w.openFile a = .ok f) (hr : readLineCount f = some (n, e)) :
    pathCount w p = n := by
  simp [pathCount, ha, hf, hr]

theorem handleFilesLoop_sum (w : World) (hEnd : ReadsEnd w) (files : List String)
    (sum : Nat) (log : HandleLog) :
    handleFilesLoop w files (sum, log) =
      .done (sum + (files.map (pathCount w)).sum, log ++ (files.map (pathOpens w)).flatten) := by
  induction files generalizing sum log with
  | nil => simp [handleFilesLoop]
  | cons file rest ih =>
    rw [handleFilesLoop]
    cases ha : w.abs file with
    | error e => simp [ih, pathCount, pathOpens, ha]
    | ok a =>
      cases hf : w.openFile a with
      | error e => simp [ih, pathCount, pathOpens, ha, hf]
      | ok fh =>
        cases hr : readLineCount fh with
        | none => exact absurd hr (hEnd a fh hf)
        | some r =>
          obtain ⟨n, e⟩ := r
          simp [ih, pathCount, pathOpens, ha, hf, hr, Nat.add_assoc]

theorem handleDirsEntries_sum (w : World) (hEnd : ReadsEnd w) (dir : String)
    (names : List DirEntry) (sum : Nat) (log : HandleLog) :
    handleDirsEntries w dir names (sum, log) =
      .done (sum + (((names.filter (fun d => !d.isDir)).map
                (fun d => w.pathJoin dir d.name)).map (pathCount w)).sum,
        log ++ (((names.filter (fun d => !d.isDir)).map
                (fun d => w.pathJoin dir d.name)).map (pathOpens w)).flatten) := by
  induction names generalizing sum log with
  | nil => simp [handleDirsEntries]
  | cons d rest ih =>
    rw [handleDirsEntries]
    cases hd : d.isDir with
    | true =>
      cases ha : w.abs (w.pathJoin dir d.name) <;> simp [ih, hd]
    | false =>
      cases ha : w.abs (w.pathJoin dir d.name) with
      | error e => simp [ih, hd, pathCount, pathOpens, ha]
      | ok a =>
        cases hf : w.openFile a with
        | error e => simp [ih, hd, pathCount, pathOpens, ha, hf]
        | ok fh =>
          cases hr : readLineCount fh with
          | none => exact absurd hr (hEnd a fh hf)
          | some r =>
            obtain ⟨n, e⟩ := r
            simp [ih, hd, pathCount, pathOpens, ha, hf, hr, Nat.add_assoc]

theorem handleDirsLoop_listable (w : World) (dirs : List String) (st : Nat × HandleLog) :
    handleDirsLoop w dirs st =
      handleDirsLoop w (dirs.filter (fun d => (w.readDir d).2.isNone)) st := by
  induction dirs generalizing st with
  | nil => rfl
  | cons dir rest ih =>
    have ihf : handleDirsLoop w rest =
        handleDirsLoop w (rest.filter (fun d => (w.readDir d).2.isNone)) := funext ih
    cases hr : w.readDir dir with
    | mk names err =>
      cases err with
      | none =>
        have hk : (dir :: rest).filter (fun d => (w.readDir d).2.isNone) =
            dir :: rest.filter (fun d => (w.readDir d).2.isNone) := by
          simp [List.filter_cons, hr]
        rw [hk, handleDirsLoop, handleDirsLoop, hr]
        simp only [ihf]
      | some e =>
        have hk : (dir :: rest).filter (fun d => (w.readDir d).2.isNone) =
            rest.filter (fun d => (w.readDir d).2.isNone) := by
          simp [List.filter_cons, hr]
        rw [hk, handleDirsLoop, hr]
        exact ih st

theorem handleDirsLoop_sum (w : World) (hEnd : ReadsEnd w) (dirs : List String)
    (sum : Nat) (log : HandleLog) :
    handleDirsLoop w dirs (sum, log) =
      .done (sum + (((dirs.map (dirFiles w)).flatten).map (pathCount w)).sum,
        log ++ (((dirs.map (dirFiles w)).flatten).map (pathOpens w)).flatten) := by
  induction dirs generalizing sum log with
  | nil => simp [handleDirsLoop]
  | cons dir rest ih =>
    rw [handleDirsLoop]
    cases hr : w.readDir dir with
    | mk names err =>
      cases err with
      | some e => simp [ih, dirFiles, hr]
      | none =>
        simp only [handleDirsEntries_sum w hEnd, Run.bind, ih]
        simp [dirFiles, hr, Nat.add_assoc]

theorem handleRecDirsVisit_file (w : World) (hEnd : ReadsEnd w) (path : String) (d : DirEntry)
    (hd : d.isDir = false) (sum : Nat) (log : HandleLog) :
    handleRecDirsVisit w path (some d) none (sum, log) =
      .done (none, (sum + pathCount w path, log ++ pathOpens w path)) := by
  simp only [handleRecDirsVisit, DirEntry.callIsDir, Run.bind, hd]
  cases ha : w.abs path with
  | error e => simp [pathCount, pathOpens, ha]
  | ok a =>
    cases hf : w.openFile a with
    | error e => simp [pathCount, pathOpens, ha, hf]
    | ok fh =>
      cases hr : readLineCount fh with
      | none => exact absurd hr (hEnd a fh hf)
      | some r =>
        obtain ⟨n, e⟩ := r
        simp [pathCount, pathOpens, ha, hf, hr]

theorem handleRecDirsVisit_dir (w : World) (path : String) (d : DirEntry)
    (hd : d.isDir = true) (st : Nat × HandleLog) :
    handleRecDirsVisit w path (some d) none st = .done (none, st) := by
  obtain ⟨sum, log⟩ := st
  simp [handleRecDirsVisit, DirEntry.callIsDir, Run.bind, hd]

theorem walkDirEntries_sum (walk : String → DirEntry → Nat × HandleLog →
      Run (Option WalkErr × (Nat × HandleLog)))
    (join : String → String → String) (path : String) (cnt : DirEntry → Nat)
    (opened : DirEntry → HandleLog) (dirs : List DirEntry)
    (h : ∀ d1 ∈ dirs, ∀ (sum : Nat) (log : HandleLog),
      walk (join path d1.name) d1 (sum, log) = .done (none, (sum + cnt d1, log ++ opened d1)))
    (sum : Nat) (log : HandleLog) :
    walkDirEntries walk join path dirs (sum, log) =
      .done (none, (sum + (dirs.map cnt).sum, log ++ (dirs.map opened).flatten)) := by
  induction dirs generalizing sum log with
  | nil => simp [walkDirEntries]
  | cons d1 rest ih =>
    rw [walkDirEntries, h d1 (by simp)]
    simp only
    rw [ih (fun d hd => h d (by simp [hd]))]
    simp [Nat.add_assoc]

theorem handleRecDirsVisit_entry (w : World) (path : String) (d : DirEntry) (e : IOErr)
    (st : Nat × HandleLog) :
    handleRecDirsVisit w path (some d) (some e) st =
      .done (if d.isDir = true ∧ e = IOErr.permission then some WalkErr.skipDir else none, st) := by
  obtain ⟨sum, log⟩ := st
  simp only [handleRecDirsVisit, DirEntry.callIsDir, Run.bind]
  split <;> rfl

theorem walkDir_covered (w : World) (hEnd : ReadsEnd w) (fuel : Nat) (path : String)
    (d : DirEntry) (hcov : Covered w fuel path d) (sum : Nat) (log : HandleLog) :
    walkDir w (handleRecDirsVisit w) fuel path d (sum, log) =
      .done (none, (sum + ((subtreeFiles w fuel path d).map (pathCount w)).sum,
        log ++ ((subtreeFiles w fuel path d).map (pathOpens w)).flatten)) := by
  induction fuel generalizing path d sum log with
  | zero => exact absurd hcov (by simp [Covered])
  | succ n ih =>
    rw [walkDir]
    cases hd : d.isDir with
    | false =>
      rw [handleRecDirsVisit_file w hEnd path d hd]
      simp [subtreeFiles, hd]
    | true =>
      rw [handleRecDirsVisit_dir w path d hd]
      have hsub := hcov hd
      have hgo : ∀ (s : Nat) (h : HandleLog),
          walkDirEntries (walkDir w (handleRecDirsVisit w) n) w.filepathJoin path
              (walked w path) (s, h) =
            .done (none, (s + ((subtreeFiles w (n + 1) path d).map (pathCount w)).sum,
              h ++ ((subtreeFiles w (n + 1) path d).map (pathOpens w)).flatten)) := by
        intro s h
        rw [walkDirEntries_sum (walkDir w (handleRecDirsVisit w) n) w.filepathJoin path
          (fun d1 => ((subtreeFiles w n (w.filepathJoin path d1.name) d1).map (pathCount w)).sum)
          (fun d1 => ((subtreeFiles w n (w.filepathJoin path d1.name) d1).map
            (pathOpens w)).flatten)
          (walked w path) (fun d1 hd1 s h => ih _ d1 (hsub d1 hd1) s h)]
        simp [subtreeFiles, hd, List.map_flatten, List.sum_flatten, Function.comp_def,
          List.flatten_flatten]
      simp only [ne_eq, not_true_eq_false, Bool.true_eq_false, or_self, if_false]
      cases hr : w.readDir path with
      | mk dirs err =>
        cases err with
        | none =>
          have hw : walked w path = dirs := by simp [walked, hr]
          rw [hw] at hgo
          exact hgo sum log
        | some e =>
          simp only [handleRecDirsVisit_entry, hd, true_and]
          by_cases he : e = IOErr.permission
          · subst he
            have hw : walked w path = [] := by simp [walked, hr]
            simp [subtreeFiles, hd, hw]
          · have hw : walked w path = dirs := by
              simp only [walked, hr]
              split
              · rename_i heq
                simp only [Prod.mk.injEq, Option.some.injEq] at heq
                exact absurd heq.2 he
              · rename_i heq
                simp only [Prod.mk.injEq] at heq
                exact heq.1.symm
            rw [hw] at hgo
            simp only [he, if_false, ne_eq, not_true_eq_false]
            exact hgo sum log

theorem WalkDir_covered (w : World) (hEnd : ReadsEnd w) (fuel : Nat) (root : String)
    (hcov : RootCovered w fuel root) (sum : Nat) (log : HandleLog) :
    WalkDir w (handleRecDirsVisit w) fuel root (sum, log) =
      .done (none, (sum + ((rootFiles w fuel root).map (pathCount w)).sum,
        log ++ ((rootFiles w fuel root).map (pathOpens w)).flatten)) := by
  obtain ⟨info, hl, hc⟩ := hcov
  simp only [WalkDir, hl, walkDir_covered w hEnd fuel root _ hc, Run.bind, rootFiles]
  simp

theorem handleRecDirsLoop_covered (w : World) (hEnd : ReadsEnd w) (fuel : Nat)
    (dirs : List String) (hcov : ∀ root ∈ dirs, RootCovered w fuel root)
    (sum : Nat) (log : HandleLog) :
    handleRecDirsLoop w fuel dirs (sum, log) =
      .done (sum + (((dirs.map (rootFiles w fuel)).flatten).map (pathCount w)).sum,
        log ++ (((dirs.map (rootFiles w fuel)).flatten).map (pathOpens w)).flatten) := by
  induction dirs generalizing sum log with
  | nil => simp [handleRecDirsLoop]
  | cons dir rest ih =>
    rw [handleRecDirsLoop, WalkDir_covered w hEnd fuel dir (hcov dir (by simp))]
    simp only [Run.bind]
    rw [ih (fun r hr => hcov r (by simp [hr]))]
    simp [Nat.add_assoc]

theorem readsEnd_scenarioWorld : ReadsEnd scenarioWorld := by
  intro a f h
  simp only [scenarioWorld] at h
  split_ifs at h <;> cases h <;> decide

/-! ## The functions add only opening calls to the log -/

theorem handleFilesLoop_grows (w : World) (files : List String) (st r : Nat × HandleLog)
    (h : handleFilesLoop w files st = .done r) :
    ∃ paths : List String, r.2 = st.2 ++ paths.map HandleCall.opened := by
  induction files generalizing st with
  | nil =>
    simp only [handleFilesLoop, Run.done.injEq] at h
    exact ⟨[], by simp [h]⟩
  | cons file rest ih =>
    obtain ⟨sum, log⟩ := st
    rw [handleFilesLoop] at h
    cases ha : w.abs file with
    | error e => rw [ha] at h; exact ih _ h
    | ok a =>
      rw [ha] at h
      simp only at h
      cases hf : w.openFile a with
      | error e => rw [hf] at h; exact ih _ h
      | ok fh =>
        rw [hf] at h
        simp only at h
        cases hr : readLineCount fh with
        | none => rw [hr] at h; cases h
        | some x =>
          rw [hr] at h
          obtain ⟨opened, ho⟩ := ih _ h
          exact ⟨[a] ++ opened, by simp [ho]⟩

theorem handleDirsEntries_grows (w : World) (dir : String) (names : List DirEntry)
    (st r : Nat × HandleLog) (h : handleDirsEntries w dir names st = .done r) :
    ∃ paths : List String, r.2 = st.2 ++ paths.map HandleCall.opened := by
  induction names generalizing st with
  | nil =>
    simp only [handleDirsEntries, Run.done.injEq] at h
    exact ⟨[], by simp [h]⟩
  | cons d rest ih =>
    obtain ⟨sum, log⟩ := st
    rw [handleDirsEntries] at h
    cases ha : w.abs (w.pathJoin dir d.name) with
    | error e => rw [ha] at h; exact ih _ h
    | ok a =>
      rw [ha] at h
      simp only at h
      cases hd : d.isDir with
      | true => simp only [hd, if_true] at h; exact ih _ h
      | false =>
        simp only [hd, Bool.false_eq_true, if_false] at h
        cases hf : w.openFile a with
        | error e => rw [hf] at h; exact ih _ h
        | ok fh =>
          rw [hf] at h
          simp only at h
          cases hr : readLineCount fh with
          | none => rw [hr] at h; cases h
          | some x =>
            rw [hr] at h
            obtain ⟨opened, ho⟩ := ih _ h
            exact ⟨[a] ++ opened, by simp [ho]⟩

theorem handleDirsLoop_grows (w : World) (dirs : List String) (st r : Nat × HandleLog)
    (h : handleDirsLoop w dirs st = .done r) :
    ∃ paths : List String, r.2 = st.2 ++ paths.map HandleCall.opened := by
  induction dirs generalizing st with
  | nil =>
    simp only [handleDirsLoop, Run.done.injEq] at h
    exact ⟨[], by simp [h]⟩
  | cons dir rest ih =>
    rw [handleDirsLoop] at h
    cases hr : w.readDir dir with
    | mk names err =>
      rw [hr] at h
      cases err with
      | some e => exact ih _ h
      | none =>
        simp only at h
        cases he : handleDirsEntries w dir names st with
        | panic => rw [he] at h; cases h
        | unfinished => rw [he] at h; cases h
        | done st1 =>
          rw [he] at h
          obtain ⟨o1, h1⟩ := handleDirsEntries_grows w dir names st st1 he
          obtain ⟨o2, h2⟩ := ih st1 h
          exact ⟨o1 ++ o2, by simp [h2, h1]⟩

theorem handleRecDirsVisit_grows (w : World) (path : String) (d : Option DirEntry)
    (err : Option IOErr) (st : Nat × HandleLog) (r : Option WalkErr × (Nat × HandleLog))
    (h : handleRecDirsVisit w path d err st = .done r) :
    ∃ paths : List String, r.2.2 = st.2 ++ paths.map HandleCall.opened := by
  cases d with
  | none =>
    obtain ⟨sum, log⟩ := st
    cases err <;> simp [handleRecDirsVisit, DirEntry.callIsDir, Run.bind] at h
  | some d =>
    cases err with
    | some e =>
      rw [handleRecDirsVisit_entry] at h
      cases h
      exact ⟨[], by simp⟩
    | none =>
      cases hd : d.isDir with
      | true =>
        rw [handleRecDirsVisit_dir w path d hd] at h
        cases h
        exact ⟨[], by simp⟩
      | false =>
        obtain ⟨sum, log⟩ := st
        simp only [handleRecDirsVisit, DirEntry.callIsDir, Run.bind, hd, Bool.false_eq_true,
          if_false] at h
        cases ha : w.abs path with
        | error e => rw [ha] at h; cases h; exact ⟨[], by simp⟩
        | ok a =>
          rw [ha] at h
          simp only at h
          cases hf : w.openFile a with
          | error e => rw [hf] at h; cases h; exact ⟨[], by simp⟩
          | ok fh =>
            rw [hf] at h
            simp only at h
            cases hr : readLineCount fh with
            | none => rw [hr] at h; cases h
            | some x => rw [hr] at h; cases h; exact ⟨[a], rfl⟩

theorem walkDirEntries_grows
    (walk : String → DirEntry → Nat × HandleLog → Run (Option WalkErr × (Nat × HandleLog)))
    (hwalk : ∀ p d st r, walk p d st = .done r →
      ∃ paths : List String, r.2.2 = st.2 ++ paths.map HandleCall.opened)
    (join : String → String → String) (path : String) (dirs : List DirEntry)
    (st : Nat × HandleLog) (r : Option WalkErr × (Nat × HandleLog))
    (h : walkDirEntries walk join path dirs st = .done r) :
    ∃ paths : List String, r.2.2 = st.2 ++ paths.map HandleCall.opened := by
  induction dirs generalizing st with
  | nil =>
    simp only [walkDirEntries, Run.done.injEq] at h
    exact ⟨[], by simp [← h]⟩
  | cons d1 rest ih =>
    rw [walkDirEntries] at h
    cases hw : walk (join path d1.name) d1 st with
    | panic => rw [hw] at h; cases h
    | unfinished => rw [hw] at h; cases h
    | done x =>
      obtain ⟨e, st1⟩ := x
      obtain ⟨o1, h1⟩ := hwalk _ _ _ _ hw
      replace h1 : st1.2 = st.2 ++ o1.map HandleCall.opened := h1
      rw [hw] at h
      cases e with
      | none =>
        obtain ⟨o2, h2⟩ := ih st1 h
        exact ⟨o1 ++ o2, by simp only [h2, h1, List.append_assoc, List.map_append]⟩
      | some we =>
        cases we <;> (simp only [Run.done.injEq] at h; exact ⟨o1, by rw [← h]; exact h1⟩)

theorem walkDir_grows (w : World) (fn : WalkDirFunc (Nat × HandleLog))
    (hfn : ∀ p d e st r, fn p d e st = .done r →
      ∃ paths : List String, r.2.2 = st.2 ++ paths.map HandleCall.opened)
    (fuel : Nat) (path : String) (d : DirEntry) (st : Nat × HandleLog)
    (r : Option WalkErr × (Nat × HandleLog)) (h : walkDir w fn fuel path d st = .done r) :
    ∃ paths : List String, r.2.2 = st.2 ++ paths.map HandleCall.opened := by
  induction fuel generalizing path d st r with
  | zero => simp [walkDir] at h
  | succ n ih =>
    rw [walkDir] at h
    cases hv : fn path (some d) none st with
    | panic => rw [hv] at h; cases h
    | unfinished => rw [hv] at h; cases h
    | done x =>
      obtain ⟨err, st1⟩ := x
      obtain ⟨o1, h1⟩ := hfn _ _ _ _ _ hv
      replace h1 : st1.2 = st.2 ++ o1.map HandleCall.opened := h1
      rw [hv] at h
      simp only at h
      split_ifs at h with hc
      · simp only [Run.done.injEq] at h
        exact ⟨o1, by rw [← h]; exact h1⟩
      · simp only [Run.done.injEq] at h
        exact ⟨o1, by rw [← h]; exact h1⟩
      · cases hr : w.readDir path with
        | mk dirs rerr =>
          rw [hr] at h
          cases rerr with
          | none =>
            obtain ⟨o2, h2⟩ := walkDirEntries_grows _ (fun p d st r => ih p d st r) _ _ _ _ _ h
            exact ⟨o1 ++ o2, by simp only [h2, h1, List.append_assoc, List.map_append]⟩
          | some e =>
            simp only at h
            cases hv2 : fn path (some d) (some e) st1 with
            | panic => rw [hv2] at h; cases h
            | unfinished => rw [hv2] at h; cases h
            | done y =>
              obtain ⟨err2, st2⟩ := y
              obtain ⟨o2, h2⟩ := hfn _ _ _ _ _ hv2
              replace h2 : st2.2 = st1.2 ++ o2.map HandleCall.opened := h2
              rw [hv2] at h
              simp only at h
              split_ifs at h with hc2
              · simp only [Run.done.injEq] at h
                exact ⟨o1 ++ o2, by rw [← h]; simp only [h2, h1, List.append_assoc, List.map_append]⟩
              · simp only [Run.done.injEq] at h
                exact ⟨o1 ++ o2, by rw [← h]; simp only [h2, h1, List.append_assoc, List.map_append]⟩
              · obtain ⟨o3, h3⟩ :=
                  walkDirEntries_grows _ (fun p d st r => ih p d st r) _ _ _ _ _ h
                exact ⟨o1 ++ o2 ++ o3, by simp only [h3, h2, h1, List.append_assoc, List.map_append]⟩

theorem WalkDir_grows (w : World) (fuel : Nat) (root : String) (st : Nat × HandleLog)
    (r : Option WalkErr × (Nat × HandleLog))
    (h : WalkDir w (handleRecDirsVisit w) fuel root st = .done r) :
    ∃ paths : List String, r.2.2 = st.2 ++ paths.map HandleCall.opened := by
  rw [WalkDir] at h
  cases hl : w.lstat root with
  | error e =>
    rw [hl] at h
    simp only at h
    cases hv : handleRecDirsVisit w root none (some e) st with
    | panic => rw [hv] at h; cases h
    | unfinished => rw [hv] at h; cases h
    | done x =>
      obtain ⟨o, ho⟩ := handleRecDirsVisit_grows _ _ _ _ _ _ hv
      rw [hv] at h
      simp only [Run.bind] at h
      split_ifs at h <;>
        (simp only [Run.done.injEq] at h; exact ⟨o, by rw [← h]; exact ho⟩)
  | ok info =>
    rw [hl] at h
    simp only at h
    cases hv : walkDir w (handleRecDirsVisit w) fuel root (fileInfoToDirEntry info) st with
    | panic => rw [hv] at h; cases h
    | unfinished => rw [hv] at h; cases h
    | done x =>
      obtain ⟨o, ho⟩ := walkDir_grows w _ (handleRecDirsVisit_grows w) _ _ _ _ _ hv
      rw [hv] at h
      simp only [Run.bind] at h
      split_ifs at h <;>
        (simp only [Run.done.injEq] at h; exact ⟨o, by rw [← h]; exact ho⟩)

theorem handleRecDirsLoop_grows (w : World) (fuel : Nat) (dirs : List String)
    (st r : Nat × HandleLog) (h : handleRecDirsLoop w fuel dirs st = .done r) :
    ∃ paths : List String, r.2 = st.2 ++ paths.map HandleCall.opened := by
  induction dirs generalizing st with
  | nil =>
    simp only [handleRecDirsLoop, Run.done.injEq] at h
    exact ⟨[], by simp [h]⟩
  | cons dir rest ih =>
    rw [handleRecDirsLoop] at h
    cases hv : WalkDir w (handleRecDirsVisit w) fuel dir st with
    | panic => rw [hv] at h; cases h
    | unfinished => rw [hv] at h; cases h
    | done x =>
      obtain ⟨o1, h1⟩ := WalkDir_grows w fuel dir st x hv
      rw [hv] at h
      obtain ⟨o2, h2⟩ := ih x.2 h
      exact ⟨o1 ++ o2, by simp only [h2, h1, List.append_assoc, List.map_append]⟩

/-! ## Claims on `readLineCount` -/

/-- C1: however a byte content is handed to `readLineCount` as successful
reads of at most 32 KiB each (empty reads allowed) followed by end of input,
the call returns, without error, the number of newline bytes of the content;
hence any two ways of chunking the same content give the same result. -/
theorem readLineCount_counts_newlines (content : List Byte) (chunks : List (List Byte))
    (last : List Byte) (rest : File) (h : Delivery content chunks last) :
    readLineCount (deliver chunks last IOErr.eof rest) =
        some (bytesCount content newline, none) ∧
      ∀ (chunks2 : List (List Byte)) (last2 : List Byte) (rest2 : File),
        Delivery content chunks2 last2 →
          readLineCount (deliver chunks2 last2 IOErr.eof rest2) =
            readLineCount (deliver chunks last IOErr.eof rest) := by
  have key : ∀ (cs : List (List Byte)) (l : List Byte) (r : File), Delivery content cs l →
      readLineCount (deliver cs l IOErr.eof r) = some (bytesCount content newline, none) := by
    intro cs l r hd
    rw [readLineCount_deliver, hd.1]
    simp
  refine ⟨key chunks last rest h, ?_⟩
  intro chunks2 last2 rest2 h2
  rw [key chunks2 last2 rest2 h2, key chunks last rest h]

/-- Witness of C1: the content `a\nb\n` read as `a`, nothing, `\nb`, and `\n`
together with end of input. -/
theorem readLineCount_counts_newlines_witness :
    Delivery [97, 10, 98, 10] [[97], [], [10, 98]] [10] ∧
      readLineCount (deliver [[97], [], [10, 98]] [10] IOErr.eof []) = some (2, none) :=
  ⟨by simp [Delivery, bufferSize],
    (readLineCount_counts_newlines [97, 10, 98, 10] [[97], [], [10, 98]] [10] []
      (by simp [Delivery, bufferSize])).1⟩

/-- C2: for `N` newline-free lines each followed by a newline, every delivery
of the stream makes `readLineCount` return `N` (so `0` for the empty stream);
with at least one line and the final newline removed it returns `N - 1`. -/
theorem readLineCount_terminated_lines (lines : List (List Byte))
    (hfree : ∀ l ∈ lines, newline ∉ l) :
    (∀ (chunks : List (List Byte)) (last : List Byte) (rest : File),
        Delivery (linesContent lines) chunks last →
          readLineCount (deliver chunks last IOErr.eof rest) = some (lines.length, none)) ∧
      (lines ≠ [] →
        ∀ (chunks : List (List Byte)) (last : List Byte) (rest : File),
          Delivery (linesContent lines).dropLast chunks last →
            readLineCount (deliver chunks last IOErr.eof rest) =
              some (lines.length - 1, none)) := by
  constructor
  · intro chunks last rest hd
    rw [readLineCount_deliver, hd.1, bytesCount_linesContent lines hfree]
    simp
  · intro hne chunks last rest hd
    rw [readLineCount_deliver, hd.1, bytesCount_linesContent_dropLast lines hfree hne]
    simp

/-- Witness of C2: the lines `ab` and `c`, read whole with the final newline
(count 2) and in two reads without it (count 1). -/
theorem readLineCount_terminated_lines_witness :
    (∀ l ∈ [[97, 98], [99]], newline ∉ l) ∧
      readLineCount (deliver [[97, 98, 10, 99, 10]] [] IOErr.eof []) = some (2, none) ∧
      readLineCount (deliver [[97, 98], [10, 99]] [] IOErr.eof []) = some (1, none) :=
  ⟨by decide,
    (readLineCount_terminated_lines [[97, 98], [99]] (by decide)).1 [[97, 98, 10, 99, 10]] [] []
      (by simp [Delivery, bufferSize, linesContent, newline]),
    (readLineCount_terminated_lines [[97, 98], [99]] (by decide)).2 (by decide)
      [[97, 98], [10, 99]] [] []
      (by simp [Delivery, bufferSize, linesContent, newline])⟩

/-- C3: `readLineCount` returns a non-nil error exactly when the reads of the
stream end with a failure other than end of input; it then returns that very
error with the number of newlines in all bytes handed out up to and including
the failing read.  End of input is never returned as an error. -/
theorem readLineCount_error_iff (f : File) (n : Nat) (err : IOErr) :
    (readLineCount f = some (n, some err) ↔
        ∃ (chunks : List (List Byte)) (last : List Byte) (rest : File),
          f = deliver chunks last err rest ∧ err ≠ IOErr.eof ∧
            n = bytesCount (chunks.flatten ++ last) newline) ∧
      readLineCount f ≠ some (n, some IOErr.eof) := by
  constructor
  · constructor
    · intro h
      obtain ⟨chunks, last, e, rest, hf⟩ := readLineCountLoop_shape f 0 _ h
      subst hf
      rw [readLineCount_deliver] at h
      by_cases he : e = IOErr.eof
      · simp [he] at h
      · simp only [he, if_false, Option.some.injEq, Prod.mk.injEq] at h
        obtain ⟨hn, he2⟩ := h
        subst he2
        exact ⟨chunks, last, rest, rfl, he, hn.symm⟩
    · rintro ⟨chunks, last, rest, hf, he, hn⟩
      rw [hf, readLineCount_deliver, hn]
      simp [he]
  · intro h
    exact readLineCountLoop_ne_eof f 0 n _ h rfl

/-! ## Claims on the validators -/

theorem validateDirs_ignores_kind (w : World) (dir a : String) (info : FileInfo)
    (rest : List String) (ha : w.abs dir = .ok a) (hst : w.stat a = .ok info) :
    validateDirs w (dir :: rest) = validateDirs w rest := by
  rw [validateDirs, ha]
  simp only [hst, FileInfo.callIsDir, Run.bind]

theorem validateDirs_missing_panics (w : World) (dir a : String) (rest : List String)
    (ha : w.abs dir = .ok a) (hst : w.stat a = .error IOErr.notExist) :
    validateDirs w (dir :: rest) = .panic := by
  rw [validateDirs, ha]
  simp only [hst, FileInfo.callIsDir, Run.bind, if_true]

/-- C4, evaluated on the code: for the existing regular file `notes.txt`
`validateDirs` returns `nil`, so a path that is not a directory passes the
validation; for the missing path `gone` it does not return at all but panics
on the `nil` file info. -/
theorem validateDirs_passes_regular_file :
    validateDirs scenarioWorld ["notes.txt"] = .done none ∧
      dirValidator scenarioWorld ["A", "notes.txt"] = .done none ∧
      validateDirs scenarioWorld ["gone"] = .panic := by
  decide

theorem fileValidator_passes_at_dir (w : World) (file a : String) (info : FileInfo)
    (rest : List String) (ha : w.abs file = .ok a) (hst : w.stat a = .ok info)
    (hd : info.isDir = true) : fileValidator w (file :: rest) = none := by
  rw [fileValidator, ha]
  simp only [hst, hd, if_true]

/-- C5, evaluated on the code: for the directory `A` the validator of the
`file` flag returns `nil`, and it returns there at once, so the missing path
`gone` listed after `A` is not looked at either. -/
theorem fileValidator_passes_directory :
    fileValidator scenarioWorld ["A"] = none ∧
      fileValidator scenarioWorld ["A", "gone"] = none ∧
      fileValidator scenarioWorld ["gone"] = some IOErr.notExist := by
  decide

/-! ## Claims on the totals -/

/-- C6: the grand total is the sum of the three subtotals, and `handleFiles`
returns the sum over the list entries, one by one, of `pathCount`: `0` for an
entry that cannot be resolved or opened, else the count `readLineCount`
returns for it, also when that count comes with a read error. -/
theorem action_total_is_sum (w : World) (fuel : Nat) (dirs recDirs files : List String)
    (log : HandleLog) (hEnd : ReadsEnd w) :
    (∀ (a b c : Nat) (h1 h2 h3 : HandleLog),
        handleDirs w dirs log = .done (a, h1) →
        handleRecDirs w fuel recDirs h1 = .done (b, h2) →
        handleFiles w files h2 = .done (c, h3) →
          action w fuel dirs recDirs files log = .done (a + b + c, h3)) ∧
      handleFiles w files log =
        .done ((files.map (pathCount w)).sum, log ++ (files.map (pathOpens w)).flatten) ∧
      (∀ (file a : String) (f : File) (n : Nat) (e : Option IOErr),
        w.abs file = .ok a → w.openFile a = .ok f → readLineCount f = some (n, e) →
          pathCount w file = n) := by
  refine ⟨?_, ?_, ?_⟩
  · intro a b c h1 h2 h3 hd hr hf
    simp [action, hd, hr, hf, Run.bind]
  · rw [handleFiles, handleFilesLoop_sum w hEnd, Nat.zero_add]
  · intro file a f n e ha hf hr
    exact pathCount_of_read w file a f n e ha hf hr

/-- Witness of C6: `A` scanned flat (3) and recursively (4), then the files
`err.txt` (3 newlines read before its read error), `A/x.txt` twice (3 each)
and the missing `gone` (0): 3 + 4 + 9 = 16. -/
theorem action_total_is_sum_witness :
    ReadsEnd scenarioWorld ∧
      action scenarioWorld 3 ["A"] ["A"] ["err.txt", "A/x.txt", "gone", "A/x.txt"] [] =
        .done (3 + 4 + 9,
          ["/w/A/x.txt", "/w/A/sub/y.txt", "/w/A/x.txt", "/w/err.txt", "/w/A/x.txt",
            "/w/A/x.txt"].map HandleCall.opened) :=
  ⟨readsEnd_scenarioWorld,
    (action_total_is_sum scenarioWorld 3 ["A"] ["A"] ["err.txt", "A/x.txt", "gone", "A/x.txt"] []
      readsEnd_scenarioWorld).1 3 4 9 (["/w/A/x.txt"].map HandleCall.opened)
      (["/w/A/x.txt", "/w/A/sub/y.txt", "/w/A/x.txt"].map HandleCall.opened)
      (["/w/A/x.txt", "/w/A/sub/y.txt", "/w/A/x.txt", "/w/err.txt", "/w/A/x.txt",
        "/w/A/x.txt"].map HandleCall.opened)
      (by decide) (by decide) (by decide)⟩

/-- C7: `handleDirs` on a directory returns the sum of the line counts of its
immediate non-directory entries only, `handleRecDirs` on it the sum over every
non-directory entry of the whole subtree; for `A/x.txt` (3 terminated lines)
and `A/sub/y.txt` (2 lines, no final newline) they return 3 and 4. -/
theorem flat_scan_and_recursive_scan (w : World) (fuel : Nat) (dir : String) (log : HandleLog)
    (hEnd : ReadsEnd w) (hcov : RootCovered w fuel dir) :
    handleDirs w [dir] log =
        .done (((dirFiles w dir).map (pathCount w)).sum,
          log ++ ((dirFiles w dir).map (pathOpens w)).flatten) ∧
      handleRecDirs w fuel [dir] log =
        .done (((rootFiles w fuel dir).map (pathCount w)).sum,
          log ++ ((rootFiles w fuel dir).map (pathOpens w)).flatten) ∧
      handleDirs scenarioWorld ["A"] [] = .done (3, [HandleCall.opened "/w/A/x.txt"]) ∧
      handleRecDirs scenarioWorld 3 ["A"] [] =
        .done (4, [HandleCall.opened "/w/A/sub/y.txt", HandleCall.opened "/w/A/x.txt"]) := by
  refine ⟨?_, ?_, by decide, by decide⟩
  · rw [handleDirs, handleDirsLoop_sum w hEnd]
    simp
  · rw [handleRecDirs, handleRecDirsLoop_covered w hEnd fuel [dir]
      (fun r hr => by
        have hrd : r = dir := by simpa using hr
        rw [hrd]
        exact hcov)]
    simp

theorem rootCovered_scenario_A : RootCovered scenarioWorld 3 "A" := by
  refine ⟨⟨"A", true⟩, rfl, ?_⟩
  simp [Covered, walked, scenarioWorld, fileInfoToDirEntry]

/-- Witness of C7: the scenario tree, where the flat scan sees `A/x.txt` only
and the walk sees `A/sub/y.txt` and `A/x.txt`. -/
theorem flat_scan_and_recursive_scan_witness :
    ReadsEnd scenarioWorld ∧ RootCovered scenarioWorld 3 "A" ∧
      dirFiles scenarioWorld "A" = ["A/x.txt"] ∧
      rootFiles scenarioWorld 3 "A" = ["A/sub/y.txt", "A/x.txt"] ∧
      handleDirs scenarioWorld ["A"] [] =
        .done (((dirFiles scenarioWorld "A").map (pathCount scenarioWorld)).sum,
          [] ++ ((dirFiles scenarioWorld "A").map (pathOpens scenarioWorld)).flatten) ∧
      handleRecDirs scenarioWorld 3 ["A"] [] =
        .done (((rootFiles scenarioWorld 3 "A").map (pathCount scenarioWorld)).sum,
          [] ++ ((rootFiles scenarioWorld 3 "A").map (pathOpens scenarioWorld)).flatten) :=
  ⟨readsEnd_scenarioWorld, rootCovered_scenario_A, by decide, by decide,
    (flat_scan_and_recursive_scan scenarioWorld 3 "A" [] readsEnd_scenarioWorld
      rootCovered_scenario_A).1,
    (flat_scan_and_recursive_scan scenarioWorld 3 "A" [] readsEnd_scenarioWorld
      rootCovered_scenario_A).2.1⟩

/-! ## Claims on the walk callback -/

theorem handleRecDirsVisit_signal (w : World) (hEnd : ReadsEnd w) (path : String)
    (d : DirEntry) (err : Option IOErr) (st : Nat × HandleLog) :
    ∃ st1, handleRecDirsVisit w path (some d) err st =
      .done (if d.isDir = true ∧ err = some IOErr.permission then some WalkErr.skipDir else none,
        st1) := by
  cases err with
  | some e =>
    refine ⟨st, ?_⟩
    rw [handleRecDirsVisit_entry]
    simp
  | none =>
    obtain ⟨sum, log⟩ := st
    cases hd : d.isDir with
    | true => exact ⟨(sum, log), by rw [handleRecDirsVisit_dir w path d hd]; simp⟩
    | false =>
      exact ⟨(sum + pathCount w path, log ++ pathOpens w path), by
        rw [handleRecDirsVisit_file w hEnd path d hd]; simp⟩

/-- C8, evaluated on the code: called with the error of a failed `Lstat` of
the root and no entry, the callback panics on `d.IsDir()` whatever the path,
the error and the sums are, and so does `handleRecDirs` on the root `gone`
that cannot be stat'ed. -/
theorem handleRecDirsVisit_nil_entry_panics :
    (∀ (w : World) (path : String) (e : IOErr) (st : Nat × HandleLog),
        handleRecDirsVisit w path none (some e) st = .panic) ∧
      handleRecDirs scenarioWorld 3 ["gone"] [] = .panic ∧
      handleRecDirs scenarioWorld 3 ["A", "gone", "A"] [] = .panic := by
  refine ⟨?_, by decide, by decide⟩
  intro w path e st
  obtain ⟨sum, log⟩ := st
  simp [handleRecDirsVisit, DirEntry.callIsDir, Run.bind]

/-! ## Claims on the file handles -/

/-- C9 as stated fails: the logs of `handleFiles`, `handleDirs` and
`handleRecDirs` in the scenario hold the calls that open the files and no
call that closes one, on the success path (`A/x.txt`) and on the read-error
path (`err.txt`) alike; so it is false that every handle a function opens has
been closed by the program when the function returns. -/
theorem handles_left_open :
    handleFiles scenarioWorld ["A/x.txt", "err.txt"] [] =
        .done (6, [HandleCall.opened "/w/A/x.txt", HandleCall.opened "/w/err.txt"]) ∧
      handleDirs scenarioWorld ["A"] [] = .done (3, [HandleCall.opened "/w/A/x.txt"]) ∧
      handleRecDirs scenarioWorld 3 ["A"] [] =
        .done (4, [HandleCall.opened "/w/A/sub/y.txt", HandleCall.opened "/w/A/x.txt"]) ∧
      ¬ (∀ (w : World) (files : List String) (r : Nat × HandleLog),
          handleFiles w files [] = .done r →
            ∀ p, HandleCall.opened p ∈ r.2 → HandleCall.closed p ∈ r.2) := by
  refine ⟨by decide, by decide, by decide, ?_⟩
  intro h
  have h1 := h scenarioWorld ["A/x.txt"] (3, [HandleCall.opened "/w/A/x.txt"]) (by decide)
    "/w/A/x.txt" (by decide)
  revert h1
  decide

/-- C9 amended: none of the three functions makes a call that closes a
handle, on the success path and on the read-error path alike.  Whatever a
function returns, the calls it has added to the log are opening calls only;
and when the reads end and the walked trees are within the fuel, they are
exactly one opening call per list entry that resolved and opened for
`handleFiles`, per such immediate non-directory entry for `handleDirs`, and
per such non-directory entry of the walked subtrees for `handleRecDirs`. -/
theorem handles_never_closed (w : World) (fuel : Nat) (files dirs recDirs : List String)
    (log : HandleLog) :
    ((∀ r, handleFiles w files log = .done r →
        ∃ paths : List String, r.2 = log ++ paths.map HandleCall.opened) ∧
      (∀ r, handleDirs w dirs log = .done r →
        ∃ paths : List String, r.2 = log ++ paths.map HandleCall.opened) ∧
      (∀ r, handleRecDirs w fuel recDirs log = .done r →
        ∃ paths : List String, r.2 = log ++ paths.map HandleCall.opened)) ∧
    (ReadsEnd w → (∀ root ∈ recDirs, RootCovered w fuel root) →
      (∃ n, handleFiles w files log =
        .done (n, log ++ (files.map (pathOpens w)).flatten)) ∧
      (∃ n, handleDirs w dirs log =
        .done (n, log ++ (((dirs.map (dirFiles w)).flatten).map (pathOpens w)).flatten)) ∧
      (∃ n, handleRecDirs w fuel recDirs log =
        .done (n, log ++ (((recDirs.map (rootFiles w fuel)).flatten).map
          (pathOpens w)).flatten))) := by
  refine ⟨⟨?_, ?_, ?_⟩, ?_⟩
  · intro r h
    exact handleFilesLoop_grows w files (0, log) r h
  · intro r h
    exact handleDirsLoop_grows w dirs (0, log) r h
  · intro r h
    exact handleRecDirsLoop_grows w fuel recDirs (0, log) r h
  · intro hEnd hcov
    refine ⟨⟨0 + (files.map (pathCount w)).sum, ?_⟩,
      ⟨0 + (((dirs.map (dirFiles w)).flatten).map (pathCount w)).sum, ?_⟩,
      ⟨0 + (((recDirs.map (rootFiles w fuel)).flatten).map (pathCount w)).sum, ?_⟩⟩
    · rw [handleFiles, handleFilesLoop_sum w hEnd]
    · rw [handleDirs, handleDirsLoop_sum w hEnd]
    · rw [handleRecDirs, handleRecDirsLoop_covered w hEnd fuel recDirs hcov]

/-- Witness of C9 amended: in the scenario, continuing a log that holds the
opening of `/w/old`, `handleFiles` on `A/x.txt`, `gone`, `err.txt` adds the
two calls that open `/w/A/x.txt` and `/w/err.txt`, and no closing call. -/
theorem handles_never_closed_witness :
    ReadsEnd scenarioWorld ∧ (∀ root ∈ ["A"], RootCovered scenarioWorld 3 root) ∧
      (∃ n, handleFiles scenarioWorld ["A/x.txt", "gone", "err.txt"]
          [HandleCall.opened "/w/old"] =
        .done (n, [HandleCall.opened "/w/old"] ++ (["A/x.txt", "gone", "err.txt"].map
          (pathOpens scenarioWorld)).flatten)) ∧
      (["A/x.txt", "gone", "err.txt"].map (pathOpens scenarioWorld)).flatten =
        [HandleCall.opened "/w/A/x.txt", HandleCall.opened "/w/err.txt"] :=
  ⟨readsEnd_scenarioWorld,
    fun root hr => by
      have hrd : root = "A" := by simpa using hr
      rw [hrd]
      exact rootCovered_scenario_A,
    ((handles_never_closed scenarioWorld 3 ["A/x.txt", "gone", "err.txt"] ["A"] ["A"]
      [HandleCall.opened "/w/old"]).2 readsEnd_scenarioWorld
      (fun root hr => by
        have hrd : root = "A" := by simpa using hr
        rw [hrd]
        exact rootCovered_scenario_A)).1,
    by decide⟩

/-! ## Claims on unlistable directories -/

/-- C10: in `handleDirs` a directory whose listing fails adds nothing and
does not stop the loop: the result for a list of directories is the result
for the list without the unlistable ones, whatever entries came along with
the listing error. -/
theorem handleDirs_skips_unlistable (w : World) (dirs : List String) (log : HandleLog) :
    handleDirs w dirs log =
        handleDirs w (dirs.filter (fun d => (w.readDir d).2.isNone)) log ∧
      ∀ (dir : String) (rest : List String), (w.readDir dir).2 ≠ none →
        handleDirs w (dir :: rest) log = handleDirs w rest log := by
  refine ⟨handleDirsLoop_listable w dirs (0, log), ?_⟩
  intro dir rest hne
  rw [handleDirs, handleDirs, handleDirsLoop]
  cases hr : w.readDir dir with
  | mk names err =>
    cases err with
    | none => rw [hr] at hne; exact absurd rfl hne
    | some e => rfl

/-- Witness of C10: `locked` lists `z.txt` together with a permission error;
the entry is dropped and `A` after it is still scanned. -/
theorem handleDirs_skips_unlistable_witness :
    (scenarioWorld.readDir "locked").2 ≠ none ∧
      handleDirs scenarioWorld ["locked", "A"] [] = handleDirs scenarioWorld ["A"] [] ∧
      handleDirs scenarioWorld ["locked", "A"] [] = .done (3, [HandleCall.opened "/w/A/x.txt"]) :=
  ⟨by decide,
    (handleDirs_skips_unlistable scenarioWorld ["locked", "A"] []).2 "locked" ["A"] (by decide),
    by decide⟩

end LineSum
